import Mathlib

/-!
Verification of the crash-proof request queue, backend lifecycle manager and
auto-switcher of the AI gateway, as implemented in `app/models/queue.py`,
`app/models/manager.py` and `app/monitoring/auto_switcher.py`.

The Python code is shallowly embedded: the in-memory queue state and the
MongoDB collection become explicit values, `datetime.utcnow()` becomes a
`now : Nat` parameter threaded through the operations, and the
exception-swallowing persistence write becomes a function parameterised by a
flag saying whether the write succeeds.
-/

/-- Request status states (`RequestStatus` in `queue.py`). -/
inductive RequestStatus where
  | QUEUED
  | PROCESSING
  | COMPLETED
  | FAILED
  | TIMEOUT
  | CANCELLED
deriving DecidableEq, Repr

/-- Request priority levels (`Priority` in `queue.py`). -/
inductive Priority where
  | LOW
  | NORMAL
  | HIGH
deriving DecidableEq, Repr

/-- A queued request (`QueuedRequest` dataclass in `queue.py`).
Timestamps are modelled as natural numbers (seconds); the opaque payload,
result and error strings keep their source names. -/
structure QueuedRequest where
  request_id : String
  model_name : String
  task_type : String
  client_id : String
  payload : String
  priority : Priority
  status : RequestStatus
  created_at : Nat
  started_at : Option Nat
  completed_at : Option Nat
  timeout_seconds : Nat
  retry_count : Nat
  max_retries : Nat
  error : Option String
  result : Option String
deriving DecidableEq, Repr

/-- `priority_order` dictionary in `CrashProofQueue._insert_by_priority`:
HIGH sorts first, then NORMAL, then LOW. -/
def priority_order : Priority → Nat
  | .HIGH => 0
  | .NORMAL => 1
  | .LOW => 2

/-- `QueuedRequest.is_timeout`: true when `started_at` is set and the elapsed
time strictly exceeds `timeout_seconds`.  Python compares a possibly negative
float; for `now ≤ s` the Nat subtraction gives elapsed 0, which agrees with
the Python result because `timeout_seconds` is a natural number. -/
def is_timeout (now : Nat) (r : QueuedRequest) : Bool :=
  match r.started_at with
  | none => false
  | some s => r.timeout_seconds < now - s

/-- The persisted MongoDB collection (`queue_state`), modelled as the list of
stored documents in insertion order. -/
abbrev Store := List QueuedRequest

/-- First document in the collection with the given `request_id`
(`collection.find_one`). -/
def lookupReq : List QueuedRequest → String → Option QueuedRequest
  | [], _ => none
  | d :: ds, i => if d.request_id = i then some d else lookupReq ds i

/-- Removal of a request id from a dict modelled as a list
(`self.processing.pop(request_id)` drops the entry with that key). -/
def removeById : List QueuedRequest → String → List QueuedRequest
  | [], _ => []
  | d :: ds, i => if d.request_id = i then removeById ds i else d :: removeById ds i

/-- Idempotent upsert keyed by `request_id`
(`collection.update_one({"request_id": ...}, {"$set": ...}, upsert=True)`,
and also dict assignment `self.processing[rid] = r`): replace the first
document with the same id, or append. -/
def upsert : List QueuedRequest → QueuedRequest → List QueuedRequest
  | [], r => [r]
  | d :: ds, r => if d.request_id = r.request_id then r :: ds else d :: upsert ds r

/-- `CrashProofQueue._persist_request`: the write is attempted and any
exception is swallowed; `ok` says whether this write succeeds.  On failure
the store is unchanged and the caller proceeds regardless. -/
def persist_request (ok : Bool) (st : Store) (r : QueuedRequest) : Store :=
  if ok then upsert st r else st

/-- In-memory state of one `CrashProofQueue` instance. -/
structure CrashProofQueue where
  model_name : String
  max_concurrent : Nat
  max_waiting : Nat
  processing : List QueuedRequest
  waiting : List QueuedRequest
  total_processed : Nat
  total_failed : Nat
  total_timeout : Nat
deriving DecidableEq, Repr

/-- A freshly constructed queue (`CrashProofQueue.__init__`). -/
def initQueue (model : String) (mc mw : Nat) : CrashProofQueue :=
  { model_name := model, max_concurrent := mc, max_waiting := mw,
    processing := [], waiting := [],
    total_processed := 0, total_failed := 0, total_timeout := 0 }

/-- `CrashProofQueue._insert_by_priority`: walk the waiting deque and insert
the request before the first member whose priority rank is strictly larger;
append when no such member exists. -/
def insert_by_priority : List QueuedRequest → QueuedRequest → List QueuedRequest
  | [], r => [r]
  | e :: es, r =>
    if priority_order r.priority < priority_order e.priority then r :: e :: es
    else e :: insert_by_priority es r

/-- Result of `CrashProofQueue.enqueue`: a request id, or the
`QueueFullError` exception. -/
inductive EnqueueOutcome where
  | accepted (rid : String)
  | queueFull
deriving DecidableEq, Repr

/-- The `QueuedRequest` built inside `CrashProofQueue.enqueue`; the dataclass
defaults give status QUEUED, `retry_count = 0` and `max_retries = 3`. -/
def mkRequest (rid model task client payload : String) (p : Priority)
    (timeout now : Nat) : QueuedRequest :=
  { request_id := rid, model_name := model, task_type := task,
    client_id := client, payload := payload, priority := p,
    status := .QUEUED, created_at := now, started_at := none,
    completed_at := none, timeout_seconds := timeout,
    retry_count := 0, max_retries := 3, error := none, result := none }

/-- `CrashProofQueue.enqueue`: reject with `QueueFullError` when the waiting
deque is at capacity, otherwise create the request, insert it by priority and
persist it (`uuid.uuid4()` is modelled by the caller-supplied `rid`). -/
def enqueue (q : CrashProofQueue) (st : Store)
    (payload task_type client_id : String) (p : Priority)
    (timeout now : Nat) (rid : String) (ok : Bool) :
    EnqueueOutcome × CrashProofQueue × Store :=
  if q.max_waiting ≤ q.waiting.length then
    (.queueFull, q, st)
  else
    let r := mkRequest rid q.model_name task_type client_id payload p timeout now
    (.accepted rid,
     { q with waiting := insert_by_priority q.waiting r },
     persist_request ok st r)

/-- `CrashProofQueue.dequeue`: return `none` at concurrency capacity or on an
empty waiting deque; otherwise pop the head, mark it PROCESSING with
`started_at = now`, move it into `processing` and persist it. -/
def dequeue (q : CrashProofQueue) (st : Store) (now : Nat) (ok : Bool) :
    Option QueuedRequest × CrashProofQueue × Store :=
  if q.max_concurrent ≤ q.processing.length then
    (none, q, st)
  else
    match q.waiting with
    | [] => (none, q, st)
    | r :: rest =>
      let r2 := { r with status := .PROCESSING, started_at := some now }
      (some r2,
       { q with waiting := rest, processing := upsert q.processing r2 },
       persist_request ok st r2)

/-- `CrashProofQueue.complete`: no-op when the id is not processing; otherwise
pop it, mark COMPLETED with `completed_at = now`, store the result, bump
`total_processed` and persist. -/
def complete (q : CrashProofQueue) (st : Store) (rid : String)
    (result : Option String) (now : Nat) (ok : Bool) :
    CrashProofQueue × Store :=
  match lookupReq q.processing rid with
  | none => (q, st)
  | some r =>
    let r2 := { r with status := .COMPLETED, completed_at := some now,
                       result := result }
    ({ q with processing := removeById q.processing rid,
              total_processed := q.total_processed + 1 },
     persist_request ok st r2)

/-- `CrashProofQueue.fail`: no-op when the id is not processing; otherwise pop
it, record the error and increment `retry_count`; if still under
`max_retries`, reset to QUEUED and re-insert by priority, else mark FAILED
with `completed_at = now` and bump `total_failed`; persist either way. -/
def fail (q : CrashProofQueue) (st : Store) (rid err : String) (now : Nat)
    (ok : Bool) : CrashProofQueue × Store :=
  match lookupReq q.processing rid with
  | none => (q, st)
  | some r =>
    let q1 := { q with processing := removeById q.processing rid }
    let r1 := { r with error := some err, retry_count := r.retry_count + 1 }
    if r1.retry_count < r1.max_retries then
      let r2 := { r1 with status := .QUEUED, started_at := none }
      ({ q1 with waiting := insert_by_priority q1.waiting r2 },
       persist_request ok st r2)
    else
      let r2 := { r1 with status := .FAILED, completed_at := some now }
      ({ q1 with total_failed := q1.total_failed + 1 },
       persist_request ok st r2)

/-- The mutation a timed-out request undergoes in `_recovery_loop`:
status TIMEOUT, `completed_at = now`. -/
def markTimeout (now : Nat) (r : QueuedRequest) : QueuedRequest :=
  { r with status := .TIMEOUT, completed_at := some now }

/-- One iteration of the timeout-handling `for` loop in
`CrashProofQueue._recovery_loop`: pop the id from `processing`, mark it
TIMEOUT, bump `total_timeout` and persist. -/
def timeoutOne (now : Nat) (ok : Bool) (s : CrashProofQueue × Store)
    (rid : String) : CrashProofQueue × Store :=
  match lookupReq s.1.processing rid with
  | none => s
  | some r =>
    ({ s.1 with processing := removeById s.1.processing rid,
                total_timeout := s.1.total_timeout + 1 },
     persist_request ok s.2 (markTimeout now r))

/-- One wake-up of `CrashProofQueue._recovery_loop`: collect the ids of the
processing requests whose `is_timeout` holds, then handle each in turn. -/
def recovery_tick (now : Nat) (ok : Bool) (q : CrashProofQueue) (st : Store) :
    CrashProofQueue × Store :=
  ((q.processing.filter (is_timeout now)).map (fun r => r.request_id)).foldl
    (timeoutOne now ok) (q, st)

/-- The recovery scan filter in `CrashProofQueue.recover_from_crash`:
documents of this model whose status is QUEUED or PROCESSING. -/
def docMatches (model : String) (d : QueuedRequest) : Bool :=
  d.model_name = model &&
    (d.status = RequestStatus.QUEUED || d.status = RequestStatus.PROCESSING)

/-- The per-document reset in `recover_from_crash`: an interrupted PROCESSING
row goes back to QUEUED with `started_at` cleared and `retry_count`
incremented; QUEUED rows are taken as they are. -/
def recoverDoc (d : QueuedRequest) : QueuedRequest :=
  if d.status = RequestStatus.PROCESSING then
    { d with status := .QUEUED, started_at := none,
             retry_count := d.retry_count + 1 }
  else d

/-- Whether `recover_from_crash` re-admits the document into `waiting`
(retry budget not yet exhausted after the reset). -/
def recoverable (d : QueuedRequest) : Bool :=
  (recoverDoc d).retry_count < (recoverDoc d).max_retries

/-- Body of the `async for` loop in `recover_from_crash`: re-insert the reset
row into `waiting` when its budget remains, otherwise persist it as FAILED
(note: without setting `completed_at`). -/
def recoverStep (s : CrashProofQueue × Store) (d : QueuedRequest) :
    CrashProofQueue × Store :=
  let r := recoverDoc d
  if r.retry_count < r.max_retries then
    ({ s.1 with waiting := insert_by_priority s.1.waiting r }, s.2)
  else
    (s.1, persist_request true s.2 { r with status := .FAILED })

/-- `CrashProofQueue.recover_from_crash`: scan the collection for pending
rows of this model (cursor snapshot), then fold the loop body over them. -/
def recover_from_crash (q : CrashProofQueue) (st : Store) :
    CrashProofQueue × Store :=
  (st.filter (docMatches q.model_name)).foldl recoverStep (q, st)

/-- One public queue operation, for reasoning about arbitrary operation
sequences. -/
inductive QOp where
  | enq (payload task_type client_id : String) (p : Priority)
        (timeout : Nat) (rid : String)
  | deq
  | comp (rid : String) (result : Option String)
  | failOp (rid : String) (emsg : String)

/-- Apply one operation to a queue/store pair (persistence succeeding). -/
def stepOp (now : Nat) (s : CrashProofQueue × Store) : QOp → CrashProofQueue × Store
  | .enq pl tk cl p t rid => (enqueue s.1 s.2 pl tk cl p t now rid true).2
  | .deq => (dequeue s.1 s.2 now true).2
  | .comp rid res => complete s.1 s.2 rid res now true
  | .failOp rid e => fail s.1 s.2 rid e now true

/-- Run a sequence of queue operations. -/
def runOps (now : Nat) (s : CrashProofQueue × Store) : List QOp → CrashProofQueue × Store
  | [] => s
  | op :: ops => runOps now (stepOp now s op) ops

/-- Drive a queue whose worker always fails: repeatedly `dequeue` and
immediately `fail` the returned request, counting dispatches, until the
queue yields nothing (fuel-bounded). -/
def alwaysFailRun (now : Nat) : Nat → CrashProofQueue × Store → Nat × CrashProofQueue × Store
  | 0, s => (0, s)
  | Nat.succ fuel, s =>
    match dequeue s.1 s.2 now true with
    | (none, q1, st1) => (0, q1, st1)
    | (some r, q1, st1) =>
      let rest := alwaysFailRun now fuel (fail q1 st1 r.request_id "err" now true)
      (rest.1 + 1, rest.2)

/-- Drive a queue with an immediately completing worker: repeatedly `dequeue`
and `complete`, recording the dispatch order (fuel-bounded). -/
def drainOrder (now : Nat) : Nat → CrashProofQueue × Store → List String
  | 0, _ => []
  | Nat.succ fuel, s =>
    match dequeue s.1 s.2 now true with
    | (none, _, _) => []
    | (some r, q1, st1) =>
      r.request_id :: drainOrder now fuel (complete q1 st1 r.request_id none now true)

/-- `AutoSwitcher._are_queues_idle`: false as soon as some queue reports a
positive `processing` metric. -/
def are_queues_idle (procs : List Nat) : Bool :=
  procs.all (fun p => p == 0)

/-- The part of `AutoSwitcher._check_and_switch` after the cooldown gate:
no recommendation, or busy queues, mean no swap; otherwise
`model_manager.switch_model` runs and on success `last_switch` is set to
now.  Returns (swap called?, new `last_switch`). -/
def check_and_switch_core (last_switch : Option Nat) (now : Nat)
    (recommended : Option String) (procs : List Nat) (swap_ok : Bool) :
    Bool × Option Nat :=
  match recommended with
  | none => (false, last_switch)
  | some _ =>
    if are_queues_idle procs then
      (true, if swap_ok then some now else last_switch)
    else
      (false, last_switch)

/-- `AutoSwitcher._check_and_switch`: return inside the cooldown window,
otherwise proceed to the recommendation/idleness checks. -/
def check_and_switch (last_switch : Option Nat) (now cooldown_min : Nat)
    (recommended : Option String) (procs : List Nat) (swap_ok : Bool) :
    Bool × Option Nat :=
  match last_switch with
  | some ls =>
    if now - ls < cooldown_min * 60 then (false, last_switch)
    else check_and_switch_core last_switch now recommended procs swap_ok
  | none => check_and_switch_core last_switch now recommended procs swap_ok

/-- `ModelManager._get_active_requests`: the queue-integration hook is a
placeholder that returns 0 for every model. -/
def get_active_requests (_model_name : String) : Nat := 0

/-- The graceful drain-wait loop in `ModelManager.stop_model`: poll the
active-request hook once a second until it reports 0 or the timeout elapses;
returns the number of polls performed. -/
def drain_wait_polls (active : String → Nat) (name : String) : Nat → Nat
  | 0 => 0
  | Nat.succ t => if active name == 0 then 1 else 1 + drain_wait_polls active name t

/-! Concrete instances used by the scenario claims. -/

/-- Operation sequence showing `fail` re-inserting into a full waiting room:
capacity 1/1, enqueue r1, dispatch it, enqueue r2 (filling `waiting`), then
fail r1 (budget remaining, so it is re-inserted). -/
def overfillOps : List QOp :=
  [.enq "p" "chat" "c" .NORMAL 300 "r1", .deq,
   .enq "p" "chat" "c" .NORMAL 300 "r2", .failOp "r1" "e"]

/-- Result of running `overfillOps` on an empty 1-slot/1-seat queue. -/
def overfillRun : CrashProofQueue × Store :=
  runOps 0 (initQueue "m" 1 1, []) overfillOps

/-- A request with the dataclass defaults (`max_retries = 3`). -/
def budgetReq : QueuedRequest := mkRequest "r0" "m" "chat" "c" "p" .NORMAL 300 0

/-- Queue holding only `budgetReq`, for the always-failing worker run. -/
def budgetQueue : CrashProofQueue := { initQueue "m" 1 10 with waiting := [budgetReq] }

/-- The always-failing run over `budgetReq` with ample fuel. -/
def budgetRun : Nat × CrashProofQueue × Store := alwaysFailRun 5 10 (budgetQueue, [budgetReq])

/-- A persisted QUEUED row with retry budget remaining. -/
def storedQueuedDoc : QueuedRequest := mkRequest "d1" "m" "chat" "c" "p" .NORMAL 300 0

/-- First recovery run over a store holding just `storedQueuedDoc`. -/
def recoverOnce : CrashProofQueue × Store :=
  recover_from_crash (initQueue "m" 1 10) [storedQueuedDoc]

/-- Second recovery run, continuing from `recoverOnce`. -/
def recoverTwice : CrashProofQueue × Store :=
  recover_from_crash recoverOnce.1 recoverOnce.2

/-- A persisted QUEUED row whose retry budget is already exhausted. -/
def exhaustedDoc : QueuedRequest :=
  { mkRequest "d2" "m" "chat" "c" "p" .NORMAL 300 0 with retry_count := 3 }

/-- Recovery over a store holding just `exhaustedDoc`. -/
def recoverExhausted : CrashProofQueue × Store :=
  recover_from_crash (initQueue "m" 1 10) [exhaustedDoc]

/-- Enqueue one request with a given priority and id into a running demo
state (payload and caller fixed, persistence succeeding). -/
def enqDemo (s : CrashProofQueue × Store) (p : Priority) (rid : String) :
    CrashProofQueue × Store :=
  (enqueue s.1 s.2 "p" "chat" "c" p 300 0 rid true).2

/-- The literal priority scenario: `max_concurrent = 1`, `max_waiting = 10`,
five NORMAL requests n1..n5 enqueued, then one HIGH request h1. -/
def priorityDemo : CrashProofQueue × Store :=
  enqDemo (enqDemo (enqDemo (enqDemo (enqDemo (enqDemo
    (initQueue "m" 1 10, []) .NORMAL "n1") .NORMAL "n2") .NORMAL "n3")
    .NORMAL "n4") .NORMAL "n5") .HIGH "h1"

/-- Dispatch order observed by dequeuing six times with immediate completes. -/
def priorityDemoOrder : List String := drainOrder 1 6 priorityDemo

/-- Admission scenario: queue with `max_waiting = 3`, four enqueues. -/
def admDemo1 : EnqueueOutcome × CrashProofQueue × Store :=
  enqueue (initQueue "m" 2 3) [] "p" "chat" "c" .NORMAL 300 0 "a" true

/-- Second admission-scenario enqueue. -/
def admDemo2 : EnqueueOutcome × CrashProofQueue × Store :=
  enqueue admDemo1.2.1 admDemo1.2.2 "p" "chat" "c" .NORMAL 300 0 "b" true

/-- Third admission-scenario enqueue. -/
def admDemo3 : EnqueueOutcome × CrashProofQueue × Store :=
  enqueue admDemo2.2.1 admDemo2.2.2 "p" "chat" "c" .NORMAL 300 0 "c" true

/-- Fourth admission-scenario enqueue: the waiting room is now full. -/
def admDemo4 : EnqueueOutcome × CrashProofQueue × Store :=
  enqueue admDemo3.2.1 admDemo3.2.2 "p" "chat" "c" .NORMAL 300 0 "d" true

/-- A waiting request about to be dequeued in the persistence examples. -/
def pendingReq : QueuedRequest := mkRequest "x1" "m" "chat" "c" "p" .NORMAL 300 0

/-- Queue holding only `pendingReq`. -/
def pendingQueue : CrashProofQueue := { initQueue "m" 1 10 with waiting := [pendingReq] }

/-- What `dequeue` turns `pendingReq` into at time 5. -/
def dispatchedReq : QueuedRequest :=
  { pendingReq with status := .PROCESSING, started_at := some 5 }

/-- Dequeue of `pendingReq` while the persistence write succeeds. -/
def dequeueOkRun : Option QueuedRequest × CrashProofQueue × Store :=
  dequeue pendingQueue [pendingReq] 5 true

/-- Dequeue of `pendingReq` while the persistence write fails. -/
def dequeueBadRun : Option QueuedRequest × CrashProofQueue × Store :=
  dequeue pendingQueue [pendingReq] 5 false

/-- A PROCESSING request that has exceeded its 5-second timeout at time 10. -/
def staleReq : QueuedRequest :=
  { mkRequest "a" "m" "chat" "c" "p" .NORMAL 5 0 with
      status := .PROCESSING, started_at := some 0 }

/-- A PROCESSING request still within its 100-second timeout at time 10. -/
def freshReq : QueuedRequest :=
  { mkRequest "b" "m" "chat" "c" "p" .NORMAL 100 0 with
      status := .PROCESSING, started_at := some 0 }

/-- Queue processing `staleReq` and `freshReq`. -/
def tickQueue : CrashProofQueue := { initQueue "m" 3 10 with processing := [staleReq, freshReq] }


/-! Basic lemmas about the list-level primitives. -/

theorem length_insert_by_priority (l : List QueuedRequest) (r : QueuedRequest) :
    (insert_by_priority l r).length = l.length + 1 := by
  induction l with
  | nil => rfl
  | cons e es ih =>
    simp only [insert_by_priority]
    split
    · simp
    · simp [ih]

theorem mem_insert_by_priority {x r : QueuedRequest} {l : List QueuedRequest} :
    x ∈ insert_by_priority l r ↔ x = r ∨ x ∈ l := by
  induction l with
  | nil => simp [insert_by_priority]
  | cons e es ih =>
    simp only [insert_by_priority]
    split
    · simp [List.mem_cons]
    · simp [List.mem_cons, ih]
      tauto

theorem length_upsert_le (l : List QueuedRequest) (r : QueuedRequest) :
    (upsert l r).length ≤ l.length + 1 := by
  induction l with
  | nil => simp [upsert]
  | cons d ds ih =>
    simp only [upsert]
    split
    · simp
    · simpa using Nat.succ_le_succ ih

theorem length_removeById_le (l : List QueuedRequest) (i : String) :
    (removeById l i).length ≤ l.length := by
  induction l with
  | nil => simp [removeById]
  | cons d ds ih =>
    simp only [removeById]
    split
    · exact Nat.le_succ_of_le ih
    · simpa using Nat.succ_le_succ ih

theorem length_removeById_lt {l : List QueuedRequest} {i : String}
    {r : QueuedRequest} (h : lookupReq l i = some r) :
    (removeById l i).length < l.length := by
  induction l with
  | nil => simp [lookupReq] at h
  | cons d ds ih =>
    simp only [lookupReq] at h
    simp only [removeById]
    by_cases hd : d.request_id = i
    · simp only [hd, if_true]
      exact Nat.lt_succ_of_le (length_removeById_le ds i)
    · simp only [hd, if_false] at h ⊢
      simpa using Nat.succ_lt_succ (ih h)

theorem lookupReq_upsert_self (l : List QueuedRequest) (r : QueuedRequest) :
    lookupReq (upsert l r) r.request_id = some r := by
  induction l with
  | nil => simp [upsert, lookupReq]
  | cons d ds ih =>
    simp only [upsert]
    by_cases hd : d.request_id = r.request_id
    · simp [hd, lookupReq]
    · simp [hd, lookupReq, ih]

theorem lookupReq_upsert_ne {j : String} {r : QueuedRequest}
    (l : List QueuedRequest) (h : j ≠ r.request_id) :
    lookupReq (upsert l r) j = lookupReq l j := by
  have h2 : ¬ r.request_id = j := fun he => h he.symm
  induction l with
  | nil => simp [upsert, lookupReq, h2]
  | cons d ds ih =>
    simp only [upsert]
    by_cases hd : d.request_id = r.request_id
    · have h3 : ¬ d.request_id = j := by rw [hd]; exact h2
      rw [if_pos hd]
      simp [lookupReq, h2, h3]
    · rw [if_neg hd]
      simp only [lookupReq]
      split
      · rfl
      · exact ih

theorem lookupReq_removeById_ne {j i : String} (l : List QueuedRequest)
    (h : j ≠ i) :
    lookupReq (removeById l i) j = lookupReq l j := by
  induction l with
  | nil => simp [removeById]
  | cons d ds ih =>
    simp only [removeById]
    by_cases hd : d.request_id = i
    · have h2 : ¬ d.request_id = j := by
        rw [hd]; exact fun he => h he.symm
      rw [if_pos hd, ih]
      simp [lookupReq, h2]
    · rw [if_neg hd]
      simp only [lookupReq]
      split
      · rfl
      · exact ih

theorem removeById_sublist (l : List QueuedRequest) (i : String) :
    (removeById l i).Sublist l := by
  induction l with
  | nil => simp [removeById]
  | cons d ds ih =>
    simp only [removeById]
    split
    · exact ih.cons d
    · exact ih.cons₂ d

theorem lookupReq_of_nodup_mem {l : List QueuedRequest} {r : QueuedRequest}
    (hnd : (l.map (fun x => x.request_id)).Nodup) (hm : r ∈ l) :
    lookupReq l r.request_id = some r := by
  induction l with
  | nil => simp at hm
  | cons d ds ih =>
    simp only [List.map_cons, List.nodup_cons] at hnd
    rcases List.mem_cons.mp hm with h | h
    · subst h
      simp [lookupReq]
    · have hne : ¬ d.request_id = r.request_id := by
        intro he
        exact hnd.1 (he ▸ List.mem_map_of_mem (fun x => x.request_id) h)
      simp only [lookupReq, hne, if_false]
      exact ih hnd.2 h

theorem removeById_of_not_mem {l : List QueuedRequest} {i : String}
    (h : i ∉ l.map (fun x => x.request_id)) : removeById l i = l := by
  induction l with
  | nil => rfl
  | cons d ds ih =>
    simp only [List.map_cons, List.mem_cons, not_or] at h
    have : ¬ d.request_id = i := fun he => h.1 he.symm
    simp [removeById, this, ih h.2]

theorem mem_upsert {d r : QueuedRequest} {l : List QueuedRequest}
    (h : d ∈ upsert l r) : d = r ∨ d ∈ l := by
  induction l with
  | nil => simpa [upsert] using h
  | cons e es ih =>
    simp only [upsert] at h
    split at h
    · rcases List.mem_cons.mp h with h | h
      · exact Or.inl h
      · exact Or.inr (List.mem_cons_of_mem e h)
    · rcases List.mem_cons.mp h with h | h
      · exact Or.inr (h ▸ List.mem_cons_self e es)
      · rcases ih h with h | h
        · exact Or.inl h
        · exact Or.inr (List.mem_cons_of_mem e h)

theorem map_id_upsert_subset (l : List QueuedRequest) (r : QueuedRequest) :
    ∀ j ∈ (upsert l r).map (fun x => x.request_id),
      j = r.request_id ∨ j ∈ l.map (fun x => x.request_id) := by
  induction l with
  | nil =>
    intro j hj
    simp [upsert] at hj
    exact Or.inl hj
  | cons d ds ih =>
    intro j hj
    simp only [upsert] at hj
    split at hj
    · simp only [List.map_cons, List.mem_cons] at hj
      rcases hj with h | h
      · exact Or.inl h
      · right
        simp only [List.map_cons, List.mem_cons]
        exact Or.inr h
    · simp only [List.map_cons, List.mem_cons] at hj
      rcases hj with h | h
      · right
        simp [List.map_cons, h]
      · rcases ih j h with h2 | h2
        · exact Or.inl h2
        · right
          simp only [List.map_cons, List.mem_cons]
          exact Or.inr h2

theorem nodup_upsert {l : List QueuedRequest} {r : QueuedRequest}
    (h : (l.map (fun x => x.request_id)).Nodup) :
    ((upsert l r).map (fun x => x.request_id)).Nodup := by
  induction l with
  | nil => simp [upsert]
  | cons d ds ih =>
    simp only [List.map_cons, List.nodup_cons] at h
    simp only [upsert]
    split
    · next hd =>
      simp only [List.map_cons, List.nodup_cons]
      exact ⟨hd ▸ h.1, h.2⟩
    · next hd =>
      simp only [List.map_cons, List.nodup_cons]
      refine ⟨?_, ih h.2⟩
      intro hmem
      rcases map_id_upsert_subset ds r d.request_id hmem with he | he
      · exact hd he
      · exact h.1 he

theorem not_mem_upsert_of_nodup {l : List QueuedRequest} {x r : QueuedRequest}
    (hnd : (l.map (fun y => y.request_id)).Nodup) (hx : x ∈ l)
    (hid : x.request_id = r.request_id) (hne : x ≠ r) : x ∉ upsert l r := by
  induction l with
  | nil => simp at hx
  | cons d ds ih =>
    simp only [List.map_cons, List.nodup_cons] at hnd
    simp only [upsert]
    split
    · next hd =>
      intro hmem
      rcases List.mem_cons.mp hmem with h | h
      · exact hne h
      · have hin : x.request_id ∈ ds.map (fun y => y.request_id) :=
          List.mem_map_of_mem (fun y => y.request_id) h
        rw [hid, ← hd] at hin
        exact hnd.1 hin
    · next hd =>
      intro hmem
      rcases List.mem_cons.mp hmem with h | h
      · apply hd
        rw [← h]
        exact hid
      · rcases List.mem_cons.mp hx with h2 | h2
        · rcases mem_upsert h with h3 | h3
          · exact hne h3
          · have hin : x.request_id ∈ ds.map (fun y => y.request_id) :=
              List.mem_map_of_mem (fun y => y.request_id) h3
            rw [h2] at hin
            exact hnd.1 hin
        · exact ih hnd.2 h2 h

theorem foldl_removeById_cons {rs : List QueuedRequest} {d : QueuedRequest}
    (acc : List QueuedRequest)
    (h : ∀ r ∈ rs, r.request_id ≠ d.request_id) :
    rs.foldl (fun a x => removeById a x.request_id) (d :: acc)
      = d :: rs.foldl (fun a x => removeById a x.request_id) acc := by
  induction rs generalizing acc with
  | nil => rfl
  | cons x xs ih =>
    simp only [List.foldl_cons]
    have hx : ¬ d.request_id = x.request_id :=
      fun he => h x (List.mem_cons_self x xs) he.symm
    have hrw : removeById (d :: acc) x.request_id = d :: removeById acc x.request_id := by
      simp [removeById, hx]
    rw [hrw]
    exact ih _ (fun r hr => h r (List.mem_cons_of_mem x hr))

theorem foldl_removeById_filter {l : List QueuedRequest} (p : QueuedRequest → Bool)
    (hnd : (l.map (fun x => x.request_id)).Nodup) :
    (l.filter p).foldl (fun a x => removeById a x.request_id) l
      = l.filter (fun r => !p r) := by
  induction l with
  | nil => rfl
  | cons d ds ih =>
    simp only [List.map_cons, List.nodup_cons] at hnd
    by_cases hp : p d
    · rw [List.filter_cons_of_pos hp]
      simp only [List.foldl_cons]
      have h1 : removeById (d :: ds) d.request_id = ds := by
        simp [removeById, removeById_of_not_mem hnd.1]
      rw [h1, ih hnd.2, List.filter_cons_of_neg (by simp [hp])]
    · rw [List.filter_cons_of_neg (by simp [hp])]
      have hclean : ∀ r ∈ ds.filter p, r.request_id ≠ d.request_id := by
        intro r hr he
        have hm : r ∈ ds := List.mem_of_mem_filter hr
        exact hnd.1 (he ▸ List.mem_map_of_mem (fun x => x.request_id) hm)
      rw [foldl_removeById_cons _ hclean, ih hnd.2,
          List.filter_cons_of_pos (by simp [hp])]

theorem lookup_foldl_upsert_ne (now : Nat) {j : String} :
    ∀ (rs : List QueuedRequest) (st : Store),
      (∀ x ∈ rs, x.request_id ≠ j) →
      lookupReq (rs.foldl (fun a x => upsert a (markTimeout now x)) st) j
        = lookupReq st j := by
  intro rs
  induction rs with
  | nil => intro st _; rfl
  | cons x xs ih =>
    intro st h
    simp only [List.foldl_cons]
    rw [ih _ (fun y hy => h y (List.mem_cons_of_mem x hy))]
    have hj : j ≠ (markTimeout now x).request_id := by
      have : (markTimeout now x).request_id = x.request_id := rfl
      rw [this]
      exact fun he => h x (List.mem_cons_self x xs) he.symm
    exact lookupReq_upsert_ne st hj

theorem lookup_foldl_upsert_self (now : Nat) :
    ∀ (rs : List QueuedRequest) (st : Store) (r : QueuedRequest),
      ((rs.map (fun x => x.request_id)).Nodup) → r ∈ rs →
      lookupReq (rs.foldl (fun a x => upsert a (markTimeout now x)) st)
          r.request_id
        = some (markTimeout now r) := by
  intro rs
  induction rs with
  | nil => intro st r _ hm; simp at hm
  | cons x xs ih =>
    intro st r hnd hm
    simp only [List.map_cons, List.nodup_cons] at hnd
    simp only [List.foldl_cons]
    rcases List.mem_cons.mp hm with h | h
    · subst h
      have hne : ∀ y ∈ xs, y.request_id ≠ r.request_id := by
        intro y hy he
        exact hnd.1 (he ▸ List.mem_map_of_mem (fun z => z.request_id) hy)
      rw [lookup_foldl_upsert_ne now xs _ hne]
      have : (markTimeout now r).request_id = r.request_id := rfl
      rw [← this]
      exact lookupReq_upsert_self st (markTimeout now r)
    · exact ih _ r hnd.2 h

theorem tick_fold_spec (now : Nat) :
    ∀ (rs : List QueuedRequest) (q : CrashProofQueue) (st : Store),
      (∀ r ∈ rs, lookupReq q.processing r.request_id = some r) →
      ((rs.map (fun r => r.request_id)).Nodup) →
      ((rs.map (fun r => r.request_id)).foldl (timeoutOne now true) (q, st)).1.processing
          = rs.foldl (fun a x => removeById a x.request_id) q.processing ∧
      ((rs.map (fun r => r.request_id)).foldl (timeoutOne now true) (q, st)).1.waiting
          = q.waiting ∧
      ((rs.map (fun r => r.request_id)).foldl (timeoutOne now true) (q, st)).1.total_timeout
          = q.total_timeout + rs.length ∧
      ((rs.map (fun r => r.request_id)).foldl (timeoutOne now true) (q, st)).2
          = rs.foldl (fun a x => upsert a (markTimeout now x)) st := by
  intro rs
  induction rs with
  | nil => intro q st _ _; exact ⟨rfl, rfl, rfl, rfl⟩
  | cons x xs ih =>
    intro q st hlook hnd
    simp only [List.map_cons, List.nodup_cons] at hnd
    simp only [List.map_cons, List.foldl_cons]
    have hx : lookupReq q.processing x.request_id = some x :=
      hlook x (List.mem_cons_self x xs)
    have hstep : timeoutOne now true (q, st) x.request_id
        = ({ q with processing := removeById q.processing x.request_id,
                    total_timeout := q.total_timeout + 1 },
           upsert st (markTimeout now x)) := by
      simp [timeoutOne, hx, persist_request]
    rw [hstep]
    have hlook2 : ∀ r ∈ xs,
        lookupReq (removeById q.processing x.request_id) r.request_id = some r := by
      intro r hr
      have hne : r.request_id ≠ x.request_id := by
        intro he
        exact hnd.1 (he ▸ List.mem_map_of_mem (fun z => z.request_id) hr)
      rw [lookupReq_removeById_ne _ hne]
      exact hlook r (List.mem_cons_of_mem x hr)
    obtain ⟨h1, h2, h3, h4⟩ := ih
      { q with processing := removeById q.processing x.request_id,
               total_timeout := q.total_timeout + 1 }
      (upsert st (markTimeout now x)) hlook2 hnd.2
    refine ⟨?_, ?_, ?_, ?_⟩
    · rw [h1]
    · rw [h2]
    · rw [h3]
      simp only [List.length_cons]
      omega
    · rw [h4]

/-- The occupancy bound that the queue actually maintains: the processing map
never exceeds `max_concurrent`, and the total in-memory population never
exceeds `max_waiting + max_concurrent`. -/
def queueBoundsInv (q : CrashProofQueue) : Prop :=
  q.processing.length ≤ q.max_concurrent ∧
  q.waiting.length + q.processing.length ≤ q.max_waiting + q.max_concurrent

theorem stepOp_preserves_inv (now : Nat) (s : CrashProofQueue × Store) (op : QOp)
    (h : queueBoundsInv s.1) : queueBoundsInv (stepOp now s op).1 := by
  obtain ⟨h1, h2⟩ := h
  cases op with
  | enq pl tk cl p t rid =>
    simp only [stepOp, enqueue]
    split
    · exact ⟨h1, h2⟩
    · next hfull =>
      have hins := length_insert_by_priority s.1.waiting
        (mkRequest rid s.1.model_name tk cl pl p t now)
      constructor
      · simpa using h1
      · simp only [queueBoundsInv] at *
        simp [hins]
        omega
  | deq =>
    simp only [stepOp, dequeue]
    split
    · exact ⟨h1, h2⟩
    · next hcap =>
      split
      · exact ⟨h1, h2⟩
      · next r rest heq =>
        have hu := length_upsert_le s.1.processing
          { r with status := .PROCESSING, started_at := some now }
        have hwl : s.1.waiting.length = rest.length + 1 := by
          rw [heq]
          rfl
        constructor
        · simp only []
          omega
        · simp only []
          omega
  | comp rid res =>
    simp only [stepOp, complete]
    split
    · exact ⟨h1, h2⟩
    · next r heq =>
      have hrm := length_removeById_le s.1.processing rid
      constructor
      · simp only []
        omega
      · simp only []
        omega
  | failOp rid e =>
    simp only [stepOp, fail]
    split
    · exact ⟨h1, h2⟩
    · next r heq =>
      have hrm := length_removeById_lt heq
      split
      · next hretry =>
        have hins := length_insert_by_priority s.1.waiting
          { r with error := some e, retry_count := r.retry_count + 1,
                   status := .QUEUED, started_at := none }
        constructor
        · simp only []
          omega
        · simp only [queueBoundsInv]
          simp [hins]
          omega
      · next hexh =>
        constructor
        · simp only []
          omega
        · simp only []
          omega

theorem runOps_preserves_inv (now : Nat) :
    ∀ (ops : List QOp) (s : CrashProofQueue × Store),
      queueBoundsInv s.1 → queueBoundsInv (runOps now s ops).1 := by
  intro ops
  induction ops with
  | nil => intro s h; exact h
  | cons op rest ih =>
    intro s h
    exact ih _ (stepOp_preserves_inv now s op h)

theorem recoverDoc_id (d : QueuedRequest) :
    (recoverDoc d).request_id = d.request_id := by
  simp only [recoverDoc]
  split
  · rfl
  · rfl

theorem foldl_recoverStep_store_of_recoverable :
    ∀ (l : List QueuedRequest) (q : CrashProofQueue) (st : Store),
      (∀ d ∈ l, recoverable d = true) →
      (l.foldl recoverStep (q, st)).2 = st := by
  intro l
  induction l with
  | nil => intro q st _; rfl
  | cons d ds ih =>
    intro q st h
    have hd : (recoverDoc d).retry_count < (recoverDoc d).max_retries :=
      of_decide_eq_true (h d (List.mem_cons_self d ds))
    simp only [List.foldl_cons]
    have hstep : recoverStep (q, st) d
        = ({ q with waiting := insert_by_priority q.waiting (recoverDoc d) }, st) := by
      simp only [recoverStep]
      rw [if_pos hd]
    rw [hstep]
    exact ih _ _ (fun x hx => h x (List.mem_cons_of_mem d hx))

theorem foldl_recoverStep_model :
    ∀ (l : List QueuedRequest) (q : CrashProofQueue) (st : Store),
      (l.foldl recoverStep (q, st)).1.model_name = q.model_name := by
  intro l
  induction l with
  | nil => intro q st; rfl
  | cons x xs ih =>
    intro q st
    simp only [List.foldl_cons, recoverStep]
    split
    · exact ih _ _
    · exact ih _ _

theorem foldl_recoverStep_store_inv (model : String) :
    ∀ (l : List QueuedRequest) (q : CrashProofQueue) (st : Store),
      ((st.map (fun d => d.request_id)).Nodup) →
      (∀ d ∈ st, docMatches model d = true → recoverable d = true ∨ d ∈ l) →
      (((l.foldl recoverStep (q, st)).2.map (fun d => d.request_id)).Nodup) ∧
      (∀ d ∈ (l.foldl recoverStep (q, st)).2,
         docMatches model d = true → recoverable d = true) := by
  intro l
  induction l with
  | nil =>
    intro q st hnd hinv
    refine ⟨hnd, ?_⟩
    intro d hd hm
    rcases hinv d hd hm with h | h
    · exact h
    · simp at h
  | cons x xs ih =>
    intro q st hnd hinv
    simp only [List.foldl_cons]
    by_cases hx : (recoverDoc x).retry_count < (recoverDoc x).max_retries
    · have hstep : recoverStep (q, st) x
          = ({ q with waiting := insert_by_priority q.waiting (recoverDoc x) }, st) := by
        simp only [recoverStep]
        rw [if_pos hx]
      rw [hstep]
      apply ih _ _ hnd
      intro d hd hm
      rcases hinv d hd hm with h | h
      · exact Or.inl h
      · rcases List.mem_cons.mp h with h2 | h2
        · left
          rw [h2]
          simpa [recoverable] using hx
        · exact Or.inr h2
    · have hstep : recoverStep (q, st) x
          = (q, upsert st { recoverDoc x with status := .FAILED }) := by
        simp only [recoverStep]
        rw [if_neg hx]
        rfl
      rw [hstep]
      apply ih _ _ (nodup_upsert hnd)
      intro d hd hm
      rcases mem_upsert hd with h | h
      · exfalso
        rw [h] at hm
        simp [docMatches] at hm
      · rcases hinv d h hm with h2 | h2
        · exact Or.inl h2
        · rcases List.mem_cons.mp h2 with h3 | h3
          · exfalso
            simp only [docMatches, Bool.and_eq_true, Bool.or_eq_true,
              decide_eq_true_eq] at hm
            have hidy : d.request_id
                = ({ recoverDoc x with status := .FAILED } : QueuedRequest).request_id := by
              show d.request_id = (recoverDoc x).request_id
              rw [recoverDoc_id, ← h3]
            have hneq : d ≠ { recoverDoc x with status := .FAILED } := by
              intro he
              have : d.status = RequestStatus.FAILED := by rw [he]
              rcases hm.2 with hq | hq
              · rw [hq] at this
                exact absurd this (by intro hc; cases hc)
              · rw [hq] at this
                exact absurd this (by intro hc; cases hc)
            exact not_mem_upsert_of_nodup hnd h hidy hneq hd
          · exact Or.inr h3

theorem insert_by_priority_split (l : List QueuedRequest) (r : QueuedRequest) :
    insert_by_priority l r
      = l.takeWhile (fun e => decide (priority_order e.priority ≤ priority_order r.priority))
        ++ r :: l.dropWhile (fun e => decide (priority_order e.priority ≤ priority_order r.priority)) := by
  induction l with
  | nil => rfl
  | cons e es ih =>
    simp only [insert_by_priority]
    by_cases hc : priority_order r.priority < priority_order e.priority
    · rw [if_pos hc]
      have hb : decide (priority_order e.priority ≤ priority_order r.priority) = false := by
        simp
        omega
      simp [List.takeWhile_cons, List.dropWhile_cons, hb]
    · rw [if_neg hc]
      have hb : decide (priority_order e.priority ≤ priority_order r.priority) = true := by
        simp
        omega
      simp only [List.takeWhile_cons, List.dropWhile_cons, hb, if_true]
      rw [ih]
      rfl

theorem insert_by_priority_pairwise {l : List QueuedRequest} {r : QueuedRequest}
    (h : l.Pairwise (fun a b => priority_order a.priority ≤ priority_order b.priority)) :
    (insert_by_priority l r).Pairwise
      (fun a b => priority_order a.priority ≤ priority_order b.priority) := by
  induction l with
  | nil => simp [insert_by_priority]
  | cons e es ih =>
    rcases List.pairwise_cons.mp h with ⟨he, hes⟩
    simp only [insert_by_priority]
    by_cases hc : priority_order r.priority < priority_order e.priority
    · rw [if_pos hc]
      refine List.pairwise_cons.mpr ⟨?_, h⟩
      intro b hb
      rcases List.mem_cons.mp hb with h2 | h2
      · rw [h2]
        exact Nat.le_of_lt hc
      · exact Nat.le_trans (Nat.le_of_lt hc) (he b h2)
    · rw [if_neg hc]
      refine List.pairwise_cons.mpr ⟨?_, ih hes⟩
      intro b hb
      rcases mem_insert_by_priority.mp hb with h2 | h2
      · rw [h2]
        exact Nat.le_of_not_lt hc
      · exact he b h2

/-! Claim theorems. -/

/-- Claim C1, counterexample: with `max_concurrent = 1` and `max_waiting = 1`,
the sequence enqueue r1, dequeue, enqueue r2, fail r1 leaves two requests in
`waiting`, because `fail` re-inserts a retried request without any capacity
check.  This refutes the claimed bound `len(waiting) ≤ max_waiting`. -/
theorem fail_requeue_overfills_waiting :
    overfillRun.1.max_waiting = 1 ∧ 1 < overfillRun.1.waiting.length := by
  decide

/-- Claim C1, amended: for every configuration and every operation sequence
starting from the empty queue, `len(processing) ≤ max_concurrent` holds at
every point, and the total in-memory population obeys
`len(waiting) + len(processing) ≤ max_waiting + max_concurrent`; the bound
`len(waiting) ≤ max_waiting` alone can be exceeded by the fail-requeue path.
Every point between operations is the run of a prefix, so quantifying over
all `ops` covers each intermediate state. -/
theorem queue_occupancy_invariant (model : String) (mc mw now : Nat)
    (ops : List QOp) :
    queueBoundsInv (runOps now (initQueue model mc mw, []) ops).1 := by
  apply runOps_preserves_inv
  constructor
  · simp [initQueue]
  · simp [initQueue]

/-- Claim C2, evaluation at the failing input: a request with
`max_retries = 3` whose worker always fails is dispatched exactly 3 times —
not the 4 the claim demands — because `fail` increments `retry_count` before
comparing it with `<`.  It does end FAILED and is counted once in
`total_failed`. -/
theorem retry_budget_three_gives_three_dispatches :
    budgetRun.1 = 3 ∧ budgetRun.1 ≠ 4 ∧
    budgetRun.2.1.total_failed = 1 ∧
    (lookupReq budgetRun.2.2 "r0").map (fun r => r.status)
      = some RequestStatus.FAILED := by
  decide

/-- Claim C3, counterexample: recovering a store holding a single recoverable
QUEUED row once puts one copy in `waiting`; recovering twice puts two copies
there, because the scan re-reads the still-pending persisted row. -/
theorem recover_twice_duplicates_waiting :
    recoverOnce.1.waiting.length = 1 ∧
    recoverTwice.1.waiting.length = 2 ∧
    recoverTwice.1.waiting ≠ recoverOnce.1.waiting := by
  decide

/-- Claim C3, amended: for stores with unique request ids, running
`recover_from_crash` twice leaves the persisted store exactly as one run
does (the second run persists nothing); only the in-memory `waiting` queue
receives duplicates. -/
theorem recover_store_idempotent (q : CrashProofQueue) (st : Store)
    (hnd : (st.map (fun d => d.request_id)).Nodup) :
    (recover_from_crash (recover_from_crash q st).1 (recover_from_crash q st).2).2
      = (recover_from_crash q st).2 := by
  have hinv0 : ∀ d ∈ st, docMatches q.model_name d = true →
      recoverable d = true ∨ d ∈ st.filter (docMatches q.model_name) := by
    intro d hd hm
    exact Or.inr (List.mem_filter.mpr ⟨hd, hm⟩)
  obtain ⟨hnd1, hrec⟩ := foldl_recoverStep_store_inv q.model_name
    (st.filter (docMatches q.model_name)) q st hnd hinv0
  have hmodel : (recover_from_crash q st).1.model_name = q.model_name := by
    simp only [recover_from_crash]
    exact foldl_recoverStep_model _ q st
  show (recover_from_crash (recover_from_crash q st).1 (recover_from_crash q st).2).2
      = (recover_from_crash q st).2
  rw [show recover_from_crash (recover_from_crash q st).1 (recover_from_crash q st).2
      = ((recover_from_crash q st).2.filter
          (docMatches (recover_from_crash q st).1.model_name)).foldl recoverStep
          ((recover_from_crash q st).1, (recover_from_crash q st).2) from rfl]
  rw [hmodel]
  apply foldl_recoverStep_store_of_recoverable
  intro d hd
  have hd2 := List.mem_filter.mp hd
  exact hrec d hd2.1 hd2.2

/-- Witness for `recover_store_idempotent` at a concrete one-row store. -/
theorem recover_store_idempotent_witness :
    ((([storedQueuedDoc] : Store).map (fun d => d.request_id)).Nodup) ∧
    (recover_from_crash recoverOnce.1 recoverOnce.2).2 = recoverOnce.2 := by
  refine ⟨by decide, ?_⟩
  exact recover_store_idempotent (initQueue "m" 1 10) [storedQueuedDoc] (by decide)

/-- Claim C4, evaluation at the failing input: recovering a persisted QUEUED
row whose retry budget is exhausted persists it as FAILED with
`completed_at = None`, violating the terminal-status ⇒ `completed_at` set
invariant that every other terminal transition maintains. -/
theorem recovery_failed_row_lacks_completed_at :
    (lookupReq recoverExhausted.2 "d2").map (fun r => (r.status, r.completed_at))
      = some (RequestStatus.FAILED, none) := by
  decide

/-- Claim C5, counterexample: in the literal scenario (five NORMAL enqueues
n1..n5, then HIGH h1, then six dequeue/complete rounds) the dispatch order
puts h1 first, not second, because h1 is inserted ahead of the still-waiting
n1. -/
theorem priority_demo_order_puts_high_first :
    priorityDemoOrder ≠ ["n1", "h1", "n2", "n3", "n4", "n5"] := by
  decide

/-- Claim C5, amended: the scenario dispatch order is h1, n1, n2, n3, n4, n5,
and in general `_insert_by_priority` inserts a request exactly after the
longest prefix of members whose priority rank is at most its own (priority
buckets with FIFO inside a bucket), preserving sortedness by rank. -/
theorem priority_insert_bucket_fifo :
    priorityDemoOrder = ["h1", "n1", "n2", "n3", "n4", "n5"] ∧
    (∀ (l : List QueuedRequest) (r : QueuedRequest),
       insert_by_priority l r
         = l.takeWhile (fun e => decide (priority_order e.priority ≤ priority_order r.priority))
           ++ r :: l.dropWhile (fun e => decide (priority_order e.priority ≤ priority_order r.priority))) ∧
    (∀ (l : List QueuedRequest) (r : QueuedRequest),
       l.Pairwise (fun a b => priority_order a.priority ≤ priority_order b.priority) →
       (insert_by_priority l r).Pairwise
         (fun a b => priority_order a.priority ≤ priority_order b.priority)) := by
  refine ⟨by decide, insert_by_priority_split, ?_⟩
  intro l r h
  exact insert_by_priority_pairwise h

/-- Witness for `priority_insert_bucket_fifo` at a concrete sorted list. -/
theorem priority_insert_bucket_fifo_witness :
    ([staleReq, freshReq].Pairwise
       (fun a b => priority_order a.priority ≤ priority_order b.priority)) ∧
    ((insert_by_priority [staleReq, freshReq] pendingReq).Pairwise
       (fun a b => priority_order a.priority ≤ priority_order b.priority)) := by
  refine ⟨by decide, ?_⟩
  exact priority_insert_bucket_fifo.2.2 [staleReq, freshReq] pendingReq (by decide)

/-- Claim C6, counterexample: when the persistence write fails, `dequeue`
still returns the request (its in-memory copy is PROCESSING) while the
persisted row still reads QUEUED, refuting the claim for executions with a
failing write. -/
theorem dequeue_returns_despite_persist_failure :
    dequeueBadRun.1.map (fun r => r.status) = some RequestStatus.PROCESSING ∧
    (lookupReq dequeueBadRun.2.2 "x1").map (fun r => r.status)
      = some RequestStatus.QUEUED := by
  decide

/-- Claim C6, amended: whenever the persistence write succeeds, the store row
of the returned request reads PROCESSING (the full dispatched record) before
`dequeue` returns; when the write fails, `dequeue` still returns the request
and the store is unchanged. -/
theorem dequeue_persists_processing_on_successful_write :
    (∀ (q : CrashProofQueue) (st : Store) (now : Nat) (r : QueuedRequest)
       (q2 : CrashProofQueue) (st2 : Store),
       dequeue q st now true = (some r, q2, st2) →
       r.status = RequestStatus.PROCESSING ∧ r.started_at = some now ∧
       lookupReq st2 r.request_id = some r) ∧
    (∀ (q : CrashProofQueue) (st : Store) (now : Nat),
       (dequeue q st now false).2.2 = st) := by
  constructor
  · intro q st now r q2 st2 h
    unfold dequeue at h
    split at h
    · simp at h
    · split at h
      · simp at h
      · next x rest heq =>
        simp only [Prod.mk.injEq, Option.some.injEq] at h
        obtain ⟨h1, h2, h3⟩ := h
        subst h1
        refine ⟨rfl, rfl, ?_⟩
        rw [← h3]
        simp only [persist_request, if_true]
        exact lookupReq_upsert_self st _
  · intro q st now
    unfold dequeue
    split
    · rfl
    · split
      · rfl
      · rfl

/-- Witness for `dequeue_persists_processing_on_successful_write` at the
concrete one-request queue. -/
theorem dequeue_persists_processing_witness :
    dispatchedReq.status = RequestStatus.PROCESSING ∧
    dispatchedReq.started_at = some 5 ∧
    lookupReq dequeueOkRun.2.2 "x1" = some dispatchedReq := by
  have h := dequeue_persists_processing_on_successful_write.1 pendingQueue
    [pendingReq] 5 dispatchedReq dequeueOkRun.2.1 dequeueOkRun.2.2 (by decide)
  exact ⟨h.1, h.2.1, h.2.2⟩

/-- Claim C7: over a processing map with unique ids whose members are all
PROCESSING with `started_at` set, `is_timeout` holds exactly of the requests
with `now − started_at > timeout_seconds`; one recovery-loop wake-up removes
exactly those from `processing` (never touching `waiting`, so nothing is
re-queued), bumps `total_timeout` by their number, and persists each as
TIMEOUT with `completed_at = now`. -/
theorem timeout_tick_characterisation (q : CrashProofQueue) (st : Store) (now : Nat)
    (hN : (q.processing.map (fun r => r.request_id)).Nodup)
    (hP : ∀ r ∈ q.processing,
       r.status = RequestStatus.PROCESSING ∧ r.started_at.isSome = true) :
    (∀ r ∈ q.processing,
       (is_timeout now r = true ↔
         r.status = RequestStatus.PROCESSING ∧
         ∃ s, r.started_at = some s ∧ r.timeout_seconds < now - s)) ∧
    (recovery_tick now true q st).1.processing
        = q.processing.filter (fun r => !is_timeout now r) ∧
    (recovery_tick now true q st).1.waiting = q.waiting ∧
    (recovery_tick now true q st).1.total_timeout
        = q.total_timeout + (q.processing.filter (is_timeout now)).length ∧
    (∀ r ∈ q.processing, is_timeout now r = true →
       lookupReq (recovery_tick now true q st).2 r.request_id
         = some (markTimeout now r)) := by
  have hsub : ∀ r ∈ q.processing.filter (is_timeout now), r ∈ q.processing :=
    fun r hr => List.mem_of_mem_filter hr
  have hlook : ∀ r ∈ q.processing.filter (is_timeout now),
      lookupReq q.processing r.request_id = some r :=
    fun r hr => lookupReq_of_nodup_mem hN (hsub r hr)
  have hndt : (((q.processing.filter (is_timeout now)).map
      (fun r => r.request_id)).Nodup) := by
    have hs : (q.processing.filter (is_timeout now)).Sublist q.processing :=
      List.filter_sublist q.processing
    exact hN.sublist (hs.map _)
  obtain ⟨h1, h2, h3, h4⟩ := tick_fold_spec now (q.processing.filter (is_timeout now))
    q st hlook hndt
  refine ⟨?_, ?_, ?_, ?_, ?_⟩
  · intro r hr
    obtain ⟨hst, hsm⟩ := hP r hr
    cases hso : r.started_at with
    | none =>
      rw [hso] at hsm
      simp at hsm
    | some s =>
      simp only [is_timeout, hso]
      constructor
      · intro hlt
        exact ⟨hst, s, rfl, by simpa using hlt⟩
      · rintro ⟨-, s2, hs2, hlt⟩
        injection hs2 with hs2
        subst hs2
        simpa using hlt
  · show (((q.processing.filter (is_timeout now)).map (fun r => r.request_id)).foldl
        (timeoutOne now true) (q, st)).1.processing = _
    rw [h1]
    exact foldl_removeById_filter (is_timeout now) hN
  · exact h2
  · exact h3
  · intro r hr ht
    have hrt : r ∈ q.processing.filter (is_timeout now) :=
      List.mem_filter.mpr ⟨hr, ht⟩
    show lookupReq (((q.processing.filter (is_timeout now)).map
        (fun r => r.request_id)).foldl (timeoutOne now true) (q, st)).2 r.request_id
      = some (markTimeout now r)
    rw [h4]
    exact lookup_foldl_upsert_self now (q.processing.filter (is_timeout now))
      st r hndt hrt

/-- Witness for `timeout_tick_characterisation` at a two-request queue with
one stale and one fresh PROCESSING request. -/
theorem timeout_tick_witness :
    ((tickQueue.processing.map (fun r => r.request_id)).Nodup) ∧
    (∀ r ∈ tickQueue.processing,
       r.status = RequestStatus.PROCESSING ∧ r.started_at.isSome = true) ∧
    (recovery_tick 10 true tickQueue []).1.processing
        = tickQueue.processing.filter (fun r => !is_timeout 10 r) := by
  refine ⟨by decide, by decide, ?_⟩
  exact (timeout_tick_characterisation tickQueue [] 10 (by decide) (by decide)).2.1

/-- Claim C8: `enqueue` raises `QueueFull` exactly when
`len(waiting) ≥ max_waiting` at the moment of the call, and in that case the
queue state and the store are returned untouched and no id is produced; in
the literal scenario with `max_waiting = 3`, three enqueues are accepted and
the fourth is rejected. -/
theorem enqueue_queue_full_iff :
    (∀ (q : CrashProofQueue) (st : Store) (pl tk cl : String) (p : Priority)
       (t now : Nat) (rid : String) (ok : Bool),
       ((enqueue q st pl tk cl p t now rid ok).1 = EnqueueOutcome.queueFull ↔
          q.max_waiting ≤ q.waiting.length) ∧
       (q.max_waiting ≤ q.waiting.length →
          enqueue q st pl tk cl p t now rid ok = (.queueFull, q, st))) ∧
    admDemo1.1 = .accepted "a" ∧ admDemo2.1 = .accepted "b" ∧
    admDemo3.1 = .accepted "c" ∧ admDemo4.1 = .queueFull := by
  refine ⟨?_, by decide, by decide, by decide, by decide⟩
  intro q st pl tk cl p t now rid ok
  constructor
  · unfold enqueue
    split
    · next hf => simp [hf]
    · next hf => simp [hf]
  · intro h
    unfold enqueue
    rw [if_pos h]

/-- Witness for `enqueue_queue_full_iff` at the full three-seat queue. -/
theorem enqueue_queue_full_witness :
    admDemo3.2.1.max_waiting ≤ admDemo3.2.1.waiting.length ∧
    enqueue admDemo3.2.1 admDemo3.2.2 "p" "chat" "c" .NORMAL 300 0 "d" true
      = (.queueFull, admDemo3.2.1, admDemo3.2.2) := by
  refine ⟨by decide, ?_⟩
  exact (enqueue_queue_full_iff.1 admDemo3.2.1 admDemo3.2.2 "p" "chat" "c"
    .NORMAL 300 0 "d" true).2 (by decide)

/-- Claim C9: whenever some queue reports a positive `processing` count, one
auto-switcher check-and-switch step performs no swap and leaves `last_switch`
unchanged, in every branch (cooldown active or not, recommendation present
or not). -/
theorem auto_switcher_no_swap_when_busy (last_switch : Option Nat)
    (now cooldown_min : Nat) (recommended : Option String) (procs : List Nat)
    (swap_ok : Bool) (p : Nat) (hp : p ∈ procs) (h0 : 0 < p) :
    check_and_switch last_switch now cooldown_min recommended procs swap_ok
      = (false, last_switch) := by
  have hidle : are_queues_idle procs = false := by
    simp only [are_queues_idle, List.all_eq_false]
    exact ⟨p, hp, by simp; omega⟩
  have hcore : ∀ ls2 : Option Nat,
      check_and_switch_core ls2 now recommended procs swap_ok = (false, ls2) := by
    intro ls2
    unfold check_and_switch_core
    cases recommended with
    | none => rfl
    | some m =>
      rw [hidle]
      rfl
  cases last_switch with
  | none =>
    unfold check_and_switch
    exact hcore none
  | some ls =>
    unfold check_and_switch
    show (if now - ls < cooldown_min * 60 then ((false, some ls) : Bool × Option Nat)
          else check_and_switch_core (some ls) now recommended procs swap_ok)
        = (false, some ls)
    by_cases hcd : now - ls < cooldown_min * 60
    · rw [if_pos hcd]
    · rw [if_neg hcd]
      exact hcore (some ls)

/-- Witness for `auto_switcher_no_swap_when_busy` with one busy queue. -/
theorem auto_switcher_no_swap_witness :
    (1 : Nat) ∈ [1, 0] ∧ 0 < (1 : Nat) ∧
    check_and_switch none 1000 5 (some "gemma") [1, 0] true = (false, none) := by
  refine ⟨by decide, by decide, ?_⟩
  exact auto_switcher_no_swap_when_busy none 1000 5 (some "gemma") [1, 0] true 1
    (by decide) (by decide)

/-- Claim C10: because the active-request hook returns 0 unconditionally for
every model, the graceful drain-wait loop in `stop_model` performs at most
one poll, and with any positive timeout exactly one poll which observes 0. -/
theorem graceful_drain_single_poll (name : String) (t : Nat) :
    drain_wait_polls get_active_requests name t ≤ 1 ∧
    (0 < t → drain_wait_polls get_active_requests name t = 1 ∧
       get_active_requests name = 0) := by
  cases t with
  | zero =>
    refine ⟨by simp [drain_wait_polls], ?_⟩
    intro h
    exact absurd h (by omega)
  | succ n =>
    constructor
    · simp [drain_wait_polls, get_active_requests]
    · intro _
      exact ⟨by simp [drain_wait_polls, get_active_requests], rfl⟩

/-- Witness for `graceful_drain_single_poll` at the default 60 s timeout. -/
theorem graceful_drain_single_poll_witness :
    0 < 60 ∧ drain_wait_polls get_active_requests "gemma" 60 = 1 := by
  refine ⟨by decide, ?_⟩
  exact ((graceful_drain_single_poll "gemma" 60).2 (by decide)).1
